import Mathlib

/-!
Verification of the py-jfif repository: a shallow embedding of the two
binary-format engines in jfif.py (the JPEG/JFIF segment scanner and
rebuilder) and exif.py (the TIFF directory decoder and tag table),
together with theorems settling the frozen specification claims.

Bytes are modelled as Nat (Python 2 reads one-character strings and
compares or ord-converts them), byte strings as List Nat, and Python
exceptions as an explicit error type threaded through Except.
-/

/-- Python-level failures that the embedded code can raise.  The last
constructors name error kinds that the specification claims exist; the
source never raises them, and they are included so that theorems can
state that fact. -/
inductive PyErr where
  | indexError
  | valueError
  | structError
  | zeroDivisionError
  | attributeError
  | ioError
  | keyError
  | nonTermination
  | malformedContainer
  | notAJpegFile
  | dimensionsUnavailable
deriving DecidableEq

/-- Python string indexing s[i]: raises IndexError when out of range. -/
def pyGet (l : List Nat) (i : Nat) : Except PyErr Nat :=
  match l.get? i with
  | some b => .ok b
  | none => .error .indexError

/-- Python 2 chr: valid only for arguments below 256, else ValueError. -/
def pyChr (n : Nat) : Except PyErr Nat :=
  if n < 256 then .ok n else .error .valueError

/-- Python slice s[a:b] for nonnegative bounds: silently clamped. -/
def sliceN (l : List Nat) (a b : Nat) : List Nat :=
  (l.take b).drop a

/-- A JFIF segment: marker byte paired with its payload bytes. -/
abbrev Segment := Nat × List Nat

/-- The terminating condition of the SOS payload search in jfif.py line
94: a 0xFF byte followed by a byte that is neither 0x00 stuffing nor a
restart code 0xD0 to 0xD7. -/
def termPair (b2 b3 : Nat) : Prop :=
  b2 = 0xff ∧ b3 ≠ 0 ∧ ¬(0xd0 ≤ b3 ∧ b3 ≤ 0xd7)

instance (b2 b3 : Nat) : Decidable (termPair b2 b3) := by
  unfold termPair; exact inferInstance

/-- The inner while loop of jfif.py lines 91 to 98: scan forward from j
for the first terminator pair, returning its position.  Reading the
lookahead byte past the end of the buffer raises IndexError; entering
with j already past the end falls through without a result.  Fuel makes
the recursion structural; the wrapper passes enough fuel that it is
never exhausted on the reachable iterations. -/
def sosScan (img : List Nat) : Nat → Nat → Except PyErr (Option Nat)
  | 0, _ => .error .nonTermination
  | fuel + 1, j =>
    if j < img.length then
      match img.get? (j + 1) with
      | none => .error .indexError
      | some b3 =>
        if termPair (img.getD j 0) b3 then .ok (some j)
        else sosScan img fuel (j + 1)
    else .ok none

/-- The outer scanning loop of jfif.py lines 82 to 103.  The index i
points at the current byte; on 0xFF the next byte is the marker code:
standalone codes are skipped, 0xDA starts the SOS search, any other
code reads a big-endian two-byte length and slices the payload. -/
def scanLoop (img : List Nat) : Nat → Nat → List Segment → Except PyErr (List Segment)
  | 0, _, _ => .error .nonTermination
  | fuel + 1, i, acc =>
    if i < img.length then
      if img.getD i 0 = 0xff then
        match img.get? (i + 1) with
        | none => .error .indexError
        | some b =>
          if b = 1 ∨ (0xd0 ≤ b ∧ b ≤ 0xd9) then
            scanLoop img fuel (i + 2) acc
          else if b = 0xda then
            match sosScan img (img.length + 1) (i + 2) with
            | .error e => .error e
            | .ok none => scanLoop img fuel (i + 2) acc
            | .ok (some j) => scanLoop img fuel j (acc ++ [(0xda, sliceN img (i + 2) j)])
          else
            match img.get? (i + 2), img.get? (i + 3) with
            | some l1, some l2 =>
              scanLoop img fuel (i + 2 + (l1 * 256 + l2))
                (acc ++ [(b, sliceN img (i + 4) (i + 2 + (l1 * 256 + l2)))])
            | _, _ => .error .indexError
      else scanLoop img fuel (i + 1) acc
    else .ok acc

/-- Break a raw byte stream into its segment list, as the constructor
of class JFIF does after obtaining the image bytes. -/
def scanSegments (img : List Nat) : Except PyErr (List Segment) :=
  scanLoop img (img.length + 1) 0 []

/-- The possible runtime shapes of the data argument of the JFIF
constructor: a Python string, a list of segments, another JFIF
instance, an object with a read method, or anything else. -/
inductive JInput where
  | str (s : List Nat)
  | list (l : List Segment)
  | inst (segs : List Segment)
  | fileLike (contents : List Nat)
  | other

/-- The dispatch of the JFIF constructor, jfif.py lines 56 to 103.  A
string starting with FF D8 FF is scanned directly; any other string is
treated as a filename and read through the filesystem fs; a list is
copied; another instance has its segments copied; every remaining
input has read() called on it, which fails with AttributeError when no
such method exists. -/
def jfifInit (fs : List Nat → Except PyErr (List Nat)) : JInput → Except PyErr (List Segment)
  | .str s =>
    if s.take 3 = [0xff, 0xd8, 0xff] then scanSegments s
    else do
      let img ← fs s
      scanSegments img
  | .list l => .ok l
  | .inst segs => .ok segs
  | .fileLike c => scanSegments c
  | .other => .error .attributeError

/-- A filesystem with no readable files, for concrete instantiations. -/
def noFS : List Nat → Except PyErr (List Nat) := fun _ => .error .ioError

/-- Re-encode one segment, jfif.py lines 116 to 125: SOS segments are
emitted as marker plus raw payload; every other segment gets the marker
put through chr and a big-endian two-byte length of payload plus two. -/
def encodeSeg (s : Segment) : Except PyErr (List Nat) :=
  if s.1 = 0xda then .ok (0xff :: 0xda :: s.2)
  else do
    let m ← pyChr s.1
    let hi ← pyChr ((s.2.length + 2) >>> 8)
    let lo ← pyChr ((s.2.length + 2) &&& 0xff)
    .ok (0xff :: m :: hi :: lo :: s.2)

/-- Concatenate the encodings of a segment list in order, failing at
the first segment whose encoding raises. -/
def encodeSegs : List Segment → Except PyErr (List Nat)
  | [] => .ok []
  | s :: rest => do
    let b ← encodeSeg s
    let tail ← encodeSegs rest
    .ok (b ++ tail)

/-- JFIF.getBytes, jfif.py lines 110 to 126: SOI, then each re-encoded
segment, then EOI. -/
def getBytes (segs : List Segment) : Except PyErr (List Nat) := do
  let body ← encodeSegs segs
  .ok ([0xff, 0xd8] ++ body ++ [0xff, 0xd9])

/-- Size contribution of one segment in JFIF.getByteSize. -/
def segSize (s : Segment) : Nat :=
  if s.1 = 0xda then 2 + s.2.length else 4 + s.2.length

/-- Sum of the per-segment contributions. -/
def sizeSum : List Segment → Nat
  | [] => 0
  | s :: rest => segSize s + sizeSum rest

/-- JFIF.getByteSize, jfif.py lines 129 to 143: zero for an empty
segment list, otherwise four bytes of framing plus per-segment sizes. -/
def getByteSize (segs : List Segment) : Nat :=
  if segs = [] then 0 else 4 + sizeSum segs

/-- The byte stream fed to the digest by JFIF.getMD5, jfif.py lines 156
to 162: marker byte then payload of every segment except Comment 0xFE
and Application 0xE0 to 0xEF segments, in order. -/
def md5Input : List Segment → Except PyErr (List Nat)
  | [] => .ok []
  | (m, p) :: rest =>
    if m = 0xfe then md5Input rest
    else if 0xe0 ≤ m ∧ m ≤ 0xef then md5Input rest
    else do
      let c ← pyChr m
      let tail ← md5Input rest
      .ok (c :: (p ++ tail))

/-- Modelled from the spec: the cryptographic hex-digest primitive (the
external md5 module imported by JFIF.getMD5, not part of this
repository).  It is modelled as an injective encoding of the fed byte
stream, two hex digits per byte, which captures the one property the
claims use: equal inputs give equal digests and distinct inputs give
distinct digests (ignoring hash collisions). -/
def md5hex (bs : List Nat) : List Nat :=
  bs.flatMap (fun b => [b / 16, b % 16])

/-- JFIF.getMD5, jfif.py lines 146 to 163: hex digest of the filtered
segment stream. -/
def getMD5 (segs : List Segment) : Except PyErr (List Nat) :=
  (md5Input segs).map md5hex

/-- JFIF.getSize, jfif.py lines 180 to 187: find the first segment with
marker 0xC0 to 0xC3 and decode width from payload bytes 3 and 4 and
height from payload bytes 1 and 2, both big-endian; with no such
segment the loop falls through and Python returns None. -/
def getSize : List Segment → Except PyErr (Option (Nat × Nat))
  | [] => .ok none
  | (m, p) :: rest =>
    if 0xc0 ≤ m ∧ m ≤ 0xc3 then do
      let b3 ← pyGet p 3
      let b4 ← pyGet p 4
      let b1 ← pyGet p 1
      let b2 ← pyGet p 2
      .ok (some (b3 * 256 + b4, b1 * 256 + b2))
    else getSize rest

/-- Little-endian accumulation of a byte list into a Nat. -/
def leNat : List Nat → Nat
  | [] => 0
  | b :: rest => b + 256 * leNat rest

/-- Reinterpret a 16-bit little-endian value as a signed short, as
struct.unpack format h does on a little-endian machine. -/
def s16 (n : Nat) : Int :=
  if n < 32768 then (n : Int) else (n : Int) - 65536

/-- Reinterpret a 32-bit little-endian value as a signed int, as
struct.unpack format i does on a little-endian machine. -/
def s32 (n : Nat) : Int :=
  if n < 2147483648 then (n : Int) else (n : Int) - 4294967296

/-- Python slice s[a:b] with possibly negative Int bounds: a negative
bound counts from the end, and everything is clamped to the list. -/
def pySliceI (l : List Nat) (a b : Int) : List Nat :=
  let n := l.length
  let lo : Nat := if a < 0 then ((n : Int) + a).toNat else min a.toNat n
  let hi : Nat := if b < 0 then ((n : Int) + b).toNat else min b.toNat n
  (l.take hi).drop lo

/-- struct.unpack of format i on a 4-byte slice; struct raises when the
slice does not have exactly the format size. -/
def unpackI32 (bs : List Nat) : Except PyErr Int :=
  if bs.length = 4 then .ok (s32 (leNat bs)) else .error .structError

/-- struct.unpack of format h on a 2-byte slice. -/
def unpackH16 (bs : List Nat) : Except PyErr Int :=
  if bs.length = 2 then .ok (s16 (leNat bs)) else .error .structError

/-- struct.unpack of format xxh on a 4-byte slice: two pad bytes then a
signed short. -/
def unpackXXH (bs : List Nat) : Except PyErr Int :=
  if bs.length = 4 then .ok (s16 (leNat (bs.drop 2))) else .error .structError

/-- The tags_by_id table of exif.py lines 12 to 87 as an ordered list
of id and name pairs. -/
def tagsList : List (Int × String) := [
  (254, "NewSubfileType"),
  (255, "SubfileType"),
  (256, "ImageWidth"),
  (257, "ImageLength"),
  (258, "BitsPerSample"),
  (259, "Compression"),
  (262, "PhotometricInterpretation"),
  (263, "Threshholding"),
  (264, "CellWidth"),
  (265, "CellLength"),
  (266, "FillOrder"),
  (269, "DocumentName"),
  (270, "ImageDescription"),
  (271, "Make"),
  (272, "Model"),
  (273, "StripOffsets"),
  (274, "Orientation"),
  (277, "SamplesPerPixel"),
  (278, "RowsPerStrip"),
  (279, "StripByteCounts"),
  (280, "MinSampleValue"),
  (281, "MaxSampleValue"),
  (282, "XResolution"),
  (283, "YResolution"),
  (284, "PlanarConfiguration"),
  (285, "PageName"),
  (286, "XPosition"),
  (287, "YPosition"),
  (288, "FreeOffsets"),
  (289, "FreeByteCounts"),
  (290, "GrayResponseUnit"),
  (291, "GrayResponseCurve"),
  (292, "T4Options"),
  (293, "T6Options"),
  (296, "ResolutionUnit"),
  (297, "PageNumber"),
  (301, "TransferFunction"),
  (305, "Software"),
  (306, "DateTime"),
  (315, "Artist"),
  (316, "HostComputer"),
  (317, "Predictor"),
  (318, "WhitePoint"),
  (319, "PrimaryChromaticities"),
  (320, "ColorMap"),
  (321, "HalftoneHints"),
  (322, "TileWidth"),
  (323, "TileLength"),
  (324, "TileOffsets"),
  (325, "TileByteCounts"),
  (332, "InkSet"),
  (333, "InkNames"),
  (334, "NumberOfInks"),
  (336, "DotRange"),
  (337, "TargetPrinter"),
  (338, "ExtraSamples"),
  (339, "SampleFormat"),
  (340, "SMinSampleValue"),
  (341, "SMaxSampleValue"),
  (342, "TransferRange"),
  (512, "JPEGProc"),
  (513, "JPEGInterchangeFormat"),
  (514, "JPEGInterchangeFormatLngth"),
  (515, "JPEGRestartInterval"),
  (517, "JPEGLosslessPredictors"),
  (518, "JPEGPointTransforms"),
  (519, "JPEGQTables"),
  (520, "JPEGDCTables"),
  (521, "JPEGACTables"),
  (529, "YCbCrCoefficients"),
  (530, "YCbCrSubSampling"),
  (531, "YCbCrPositioning"),
  (532, "ReferenceBlackWhite"),
  (33432, "Copyright")]

/-- Lookup a display name by tag id, as tags_by_id.get does. -/
def tagsById (id : Int) : Option String :=
  (tagsList.find? (fun e => e.1 = id)).map (fun e => e.2)

/-- Lookup a tag id by display name, as the reversed table tags_by_name
built in exif.py lines 90 to 92 does. -/
def tagsByName (s : String) : Option Int :=
  (tagsList.find? (fun e => e.2 = s)).map (fun e => e.1)

/-- The value slot of a decoded directory entry: an integer for Byte,
Short, Long and Rational entries, a byte string for Ascii entries. -/
inductive PyVal where
  | int (i : Int)
  | str (s : List Nat)
deriving DecidableEq

/-- One Image File Directory entry, class IFDEntry of exif.py. -/
structure IFDEntry where
  typ : Option Int
  id : Int
  value : PyVal
  name : Option String
deriving DecidableEq

/-- The IFDEntry constructor, exif.py lines 128 to 132: the display
name is resolved from the static table at construction. -/
def IFDEntry.make (tagId : Int) (value : PyVal) (typ : Option Int) : IFDEntry :=
  ⟨typ, tagId, value, tagsById tagId⟩

/-- A Python dictionary key as used by class Exif: an int tag id or a
string name. -/
inductive PyKey where
  | int (i : Int)
  | str (s : String)
deriving DecidableEq

/-- The key normalization of exif.py lines 95 to 98: a string key is
looked up in the reverse table and replaced by its id when known. -/
def normalizeKey : PyKey → PyKey
  | .str s =>
    match tagsByName s with
    | some id => .int id
    | none => .str s
  | k => k

/-- Python dict assignment on an association list: replace in place
when the key is present, else append. -/
def dictSet (m : List (PyKey × IFDEntry)) (k : PyKey) (v : IFDEntry) : List (PyKey × IFDEntry) :=
  match m with
  | [] => [(k, v)]
  | (k1, v1) :: rest => if k1 = k then (k, v) :: rest else (k1, v1) :: dictSet rest k v

/-- Python dict lookup on an association list. -/
def dictGet (m : List (PyKey × IFDEntry)) (k : PyKey) : Option IFDEntry :=
  (m.find? (fun e => e.1 = k)).map (fun e => e.2)

/-- Python del on an association list: KeyError when absent. -/
def dictDel (m : List (PyKey × IFDEntry)) (k : PyKey) : Except PyErr (List (PyKey × IFDEntry)) :=
  match m with
  | [] => .error .keyError
  | (k1, v1) :: rest =>
    if k1 = k then .ok rest
    else (dictDel rest k).map (fun r => (k1, v1) :: r)

/-- The observable state of an Exif object: its entry dictionary and
the dirty flag, a Python int that the source sets to 0 or 1. -/
structure Exif where
  entries : List (PyKey × IFDEntry)
  dirty : Nat
deriving DecidableEq

/-- Exif.__setitem__, exif.py lines 187 to 191: normalize the key,
store the entry, set dirty. -/
def exifSetitem (st : Exif) (k : PyKey) (v : IFDEntry) : Exif :=
  ⟨dictSet st.entries (normalizeKey k) v, 1⟩

/-- Exif.__delitem__, exif.py lines 193 to 196: normalize the key,
delete (KeyError when absent), set dirty. -/
def exifDelitem (st : Exif) (k : PyKey) : Except PyErr Exif :=
  (dictDel st.entries (normalizeKey k)).map (fun m => ⟨m, 1⟩)

/-- The 12-byte chunk sliced for one tag header, exif.py line 103. -/
def tiffChunk (data : List Nat) (off : Int) : List Nat :=
  pySliceI data off (off + 12)

/-- Field tag of the hhii unpack of the chunk: signed short at 0. -/
def tiffTag (data : List Nat) (off : Int) : Int :=
  s16 (leNat ((tiffChunk data off).take 2))

/-- Field typ of the hhii unpack of the chunk: signed short at 2. -/
def tiffTyp (data : List Nat) (off : Int) : Int :=
  s16 (leNat (((tiffChunk data off).drop 2).take 2))

/-- Field num_vals of the hhii unpack of the chunk: signed int at 4. -/
def tiffNumVals (data : List Nat) (off : Int) : Int :=
  s32 (leNat (((tiffChunk data off).drop 4).take 4))

/-- Field val_off of the hhii unpack of the chunk: signed int at 8. -/
def tiffValOff (data : List Nat) (off : Int) : Int :=
  s32 (leNat ((tiffChunk data off).drop 8))

/-- The 8-byte slice holding a Rational value pair, exif.py line 119. -/
def tiffRatBytes (data : List Nat) (off : Int) : List Nat :=
  pySliceI data (tiffValOff data off) (tiffValOff data off + 8)

/-- _decode_tiff_value, exif.py lines 102 to 123.  The 12-byte header
is unpacked as tag, typ, num_vals, val_off.  Byte, Short and Long
entries take val_off inline; Ascii slices num_vals minus one bytes at
val_off; Rational reads two unsigned 4-byte ints at val_off and divides
them with Python 2 integer division, raising ZeroDivisionError when the
denominator is zero; any other type raises ValueError, as does a chunk
that is not exactly 12 bytes. -/
def _decode_tiff_value (data : List Nat) (off : Int) : Except PyErr IFDEntry :=
  if (tiffChunk data off).length ≠ 12 then .error .valueError
  else
    let tag := tiffTag data off
    let typ := tiffTyp data off
    if typ = 1 then .ok (IFDEntry.make tag (.int (tiffValOff data off)) (some typ))
    else if typ = 2 then
      .ok (IFDEntry.make tag
        (.str (pySliceI data (tiffValOff data off) (tiffValOff data off + tiffNumVals data off - 1)))
        (some typ))
    else if typ = 3 then .ok (IFDEntry.make tag (.int (tiffValOff data off)) (some typ))
    else if typ = 4 then .ok (IFDEntry.make tag (.int (tiffValOff data off)) (some typ))
    else if typ = 5 then
      let r := tiffRatBytes data off
      if r.length ≠ 8 then .error .structError
      else
        let num := leNat (r.take 4)
        let dem := leNat (r.drop 4)
        if dem = 0 then .error .zeroDivisionError
        else .ok (IFDEntry.make tag (.int (num / dem)) (some typ))
    else .error .valueError

/-- The inner for loop of Exif.__init__, exif.py lines 169 to 172:
decode n consecutive 12-byte entries, inserting each through the
mutating setter, and return the state with the offset just past the
last entry. -/
def entriesLoop (data : List Nat) : Nat → Int → Exif → Except PyErr (Exif × Int)
  | 0, off, st => .ok (st, off)
  | n + 1, off, st => do
    let tag ← _decode_tiff_value data off
    entriesLoop data n (off + 12) (exifSetitem st (.int tag.id) tag)

/-- The outer while loop of Exif.__init__, exif.py lines 162 to 172:
read a 4-byte offset at the current position, stop on zero, otherwise
read a 2-byte entry count there and decode that many entries.  The
offset then sits on the trailing 4-byte slot after the entries, which
the next iteration reads.  Fuel makes the recursion structural; a
cyclic offset chain, on which the Python loops forever, exhausts it. -/
def exifLoop (data : List Nat) : Nat → Int → Exif → Except PyErr Exif
  | 0, _, _ => .error .nonTermination
  | fuel + 1, off, st => do
    let off2 ← unpackI32 (pySliceI data off (off + 4))
    if off2 = 0 then .ok st
    else do
      let ne ← unpackH16 (pySliceI data off2 (off2 + 2))
      let r ← entriesLoop data ne.toNat (off2 + 2) st
      exifLoop data fuel r.2 r.1

/-- Exif.__init__, exif.py lines 143 to 172: empty input gives the
empty table with dirty 0; otherwise the first two bytes must both be
the letter I, the short at offset 2 must be 42, and the directory chain
is walked starting from the offset stored at byte 4. -/
def exifInit (data : List Nat) : Except PyErr Exif :=
  if data.length = 0 then .ok ⟨[], 0⟩
  else do
    let b0 ← pyGet data 0
    if b0 ≠ 73 then .error .valueError
    else do
      let b1 ← pyGet data 1
      if b1 ≠ 73 then .error .valueError
      else do
        let magic ← unpackXXH (pySliceI data 0 4)
        if magic ≠ 42 then .error .valueError
        else exifLoop data (data.length + 1) 4 ⟨[], 0⟩

/-- Decidable equality for Except results, used to evaluate concrete
runs of the embedded code. -/
instance {e a : Type} [DecidableEq e] [DecidableEq a] : DecidableEq (Except e a) := fun x y =>
  match x, y with
  | .ok v, .ok w => if h : v = w then .isTrue (by rw [h]) else .isFalse (by intro c; cases c; exact h rfl)
  | .ok _, .error _ => .isFalse (by intro c; cases c)
  | .error _, .ok _ => .isFalse (by intro c; cases c)
  | .error v, .error w => if h : v = w then .isTrue (by rw [h]) else .isFalse (by intro c; cases c; exact h rfl)

/-- No position inside the payload matches the SOS terminator pair. -/
def noTermInside (p : List Nat) : Prop :=
  ∀ k, k + 1 < p.length → ¬ termPair (p.getD k 0) (p.getD (k + 1) 0)

/-- Shape of every SOS payload the scanner can emit: no internal
terminator pair and a last byte that is not 0xFF, so that re-scanning
the re-encoded stream stops exactly at the original boundary. -/
def sosPayloadOk (p : List Nat) : Prop :=
  noTermInside p ∧ (p ≠ [] → p.getD (p.length - 1) 0 ≠ 0xff)

/-- Shape of every segment the scanner can emit: an SOS segment has a
well-shaped payload; any other segment has a byte marker that is not a
standalone code and a payload short enough for its two-byte length. -/
def segWF (s : Segment) : Prop :=
  if s.1 = 0xda then sosPayloadOk s.2
  else s.1 < 256 ∧ s.1 ≠ 1 ∧ ¬(0xd0 ≤ s.1 ∧ s.1 ≤ 0xd9) ∧ s.2.length + 2 < 65536

/-- No segment whose marker is the stuffing byte 0x00 directly follows
an SOS segment.  The scanner treats FF 00 inside scan data as stuffing
but elsewhere as a marker, which is exactly the mid-scan marker
ambiguity the round-trip property excludes. -/
def chainOk : List Segment → Prop
  | (m1, _) :: (m2, p2) :: rest => (m1 = 0xda → m2 ≠ 0) ∧ chainOk ((m2, p2) :: rest)
  | _ => True

/-- The pure byte encoding of one segment, the value computed by the
loop body of getBytes when no chr call fails. -/
def encSeg (s : Segment) : List Nat :=
  if s.1 = 0xda then 0xff :: 0xda :: s.2
  else 0xff :: s.1 :: ((s.2.length + 2) / 256) :: ((s.2.length + 2) % 256) :: s.2

/-- The pure byte encoding of a segment list. -/
def encSegs : List Segment → List Nat
  | [] => []
  | s :: rest => encSeg s ++ encSegs rest

/-- The dirty flag tracks whether the entry table is nonempty during
construction: both start false and empty, and the only mutation is the
setter, which sets the flag and makes the table nonempty. -/
def dirtyInv (st : Exif) : Prop :=
  (st.dirty = 0 ∧ st.entries = []) ∨ (st.dirty = 1 ∧ st.entries ≠ [])

/-- Indexing below the length succeeds with the getD value. -/
theorem pyGet_ok : ∀ (l : List Nat) (i : Nat), i < l.length → pyGet l i = .ok (l.getD i 0)
  | _ :: _, 0, _ => rfl
  | _ :: l, i + 1, h => pyGet_ok l i (by simpa using h)

/-- A byte value passes chr unchanged. -/
theorem pyChr_ok (n : Nat) (h : n < 256) : pyChr n = .ok n := by
  simp [pyChr, h]

/-- Lookup past a left part lands in the right part. -/
theorem get?_append_add : ∀ (l1 l2 : List Nat) (k : Nat), (l1 ++ l2).get? (l1.length + k) = l2.get? k
  | [], _, _ => by simp
  | a :: l1, l2, k => by
    have h := get?_append_add l1 l2 k
    simpa [List.length_cons, Nat.succ_add] using h

/-- getD version of lookup past a left part. -/
theorem getD_append_add (l1 l2 : List Nat) (k d : Nat) :
    (l1 ++ l2).getD (l1.length + k) d = l2.getD k d := by
  rw [List.getD_eq_getElem?_getD, List.getD_eq_getElem?_getD, ← List.get?_eq_getElem?, ← List.get?_eq_getElem?, get?_append_add]

/-- Lookup in a dropped list shifts the index. -/
theorem get?_drop_add : ∀ (l : List Nat) (a k : Nat), (l.drop a).get? k = l.get? (a + k)
  | _, 0, _ => by simp
  | [], _ + 1, _ => by simp
  | _ :: l, a + 1, k => by
    have h := get?_drop_add l a k
    simp only [List.drop_succ_cons, h, Nat.succ_add, List.get?_cons_succ]

/-- Lookup below the bound passes through take. -/
theorem get?_take_lt : ∀ (l : List Nat) (b k : Nat), k < b → (l.take b).get? k = l.get? k
  | _, 0, _, h => by omega
  | [], _ + 1, _, _ => by simp
  | _ :: _, _ + 1, 0, _ => rfl
  | _ :: l, b + 1, k + 1, h => by
    have h2 := get?_take_lt l b k (by omega)
    simpa using h2

/-- Length of a nonnegative slice. -/
theorem sliceN_length (l : List Nat) (a b : Nat) :
    (sliceN l a b).length = min b l.length - a := by
  simp [sliceN]

/-- Reading inside a slice reads the underlying list. -/
theorem sliceN_getD (l : List Nat) (a b k : Nat) (h : k < (sliceN l a b).length) :
    (sliceN l a b).getD k 0 = l.getD (a + k) 0 := by
  have hb : a + k < b := by
    have := sliceN_length l a b
    omega
  rw [List.getD_eq_getElem?_getD, List.getD_eq_getElem?_getD, ← List.get?_eq_getElem?, ← List.get?_eq_getElem?]
  unfold sliceN
  rw [get?_drop_add, get?_take_lt _ _ _ hb]

/-- Slicing out exactly the middle part of an append. -/
theorem sliceN_extract (pre mid post : List Nat) :
    sliceN (pre ++ mid ++ post) pre.length (pre.length + mid.length) = mid := by
  unfold sliceN
  rw [show pre ++ mid ++ post = (pre ++ mid) ++ post by simp,
    show pre.length + mid.length = (pre ++ mid).length by simp,
    List.take_left, List.drop_left]

/-- Slicing from a boundary to anywhere past the end takes the tail. -/
theorem sliceN_all (pre tail : List Nat) (b : Nat) (h : pre.length + tail.length ≤ b) :
    sliceN (pre ++ tail) pre.length b = tail := by
  unfold sliceN
  rw [List.take_of_length_le (by simp; omega), List.drop_left]

/-- A successful segment encoding has exactly the size that
getByteSize charges for the segment. -/
theorem encodeSeg_length (s : Segment) (b : List Nat) (h : encodeSeg s = .ok b) :
    b.length = segSize s := by
  unfold encodeSeg at h
  unfold segSize
  by_cases hm : s.1 = 0xda
  · rw [if_pos hm] at h
    rw [if_pos hm]
    cases h
    simp
    omega
  · rw [if_neg hm] at h
    rw [if_neg hm]
    unfold pyChr at h
    split at h
    · split at h
      · split at h
        · cases h
          simp
          omega
        · cases h
      · cases h
    · cases h

/-- A successful encoding of a list has the summed segment sizes. -/
theorem encodeSegs_length : ∀ (segs : List Segment) (body : List Nat),
    encodeSegs segs = .ok body → body.length = sizeSum segs
  | [], body, h => by
    cases h
    rfl
  | s :: rest, body, h => by
    unfold encodeSegs at h
    cases hs : encodeSeg s with
    | error e => rw [hs] at h; cases h
    | ok b =>
      rw [hs] at h
      cases ht : encodeSegs rest with
      | error e => rw [ht] at h; cases h
      | ok tail =>
        rw [ht] at h
        cases h
        have h1 := encodeSeg_length s b hs
        have h2 := encodeSegs_length rest tail ht
        simp [sizeSum, h1, h2]

/-- C1, corrected part: for a container with a nonempty segment list,
whenever getBytes succeeds, getByteSize equals the length of the
returned byte string. -/
theorem C1_size_matches_bytes (segs : List Segment) (bs : List Nat)
    (hne : segs ≠ []) (h : getBytes segs = .ok bs) :
    getByteSize segs = bs.length := by
  unfold getBytes at h
  cases hb : encodeSegs segs with
  | error e => rw [hb] at h; cases h
  | ok body =>
    rw [hb] at h
    cases h
    have hlen := encodeSegs_length segs body hb
    unfold getByteSize
    rw [if_neg hne]
    simp [hlen]
    omega

/-- C1 witness: a concrete one-segment container whose rebuilt stream
has the predicted length. -/
theorem C1_size_matches_bytes_witness :
    getByteSize [(0xfe, [0x61])] = [0xff, 0xd8, 0xff, 0xfe, 0x00, 0x03, 0x61, 0xff, 0xd9].length :=
  C1_size_matches_bytes [(0xfe, [0x61])] [0xff, 0xd8, 0xff, 0xfe, 0x00, 0x03, 0x61, 0xff, 0xd9]
    (by decide) rfl

/-- C1 counterexample: the empty container breaks the claimed
invariant, since getByteSize returns 0 while getBytes returns the
4-byte SOI plus EOI framing. -/
theorem C1_empty_counterexample :
    getBytes ([] : List Segment) = .ok [0xff, 0xd8, 0xff, 0xd9] ∧
    getByteSize ([] : List Segment) ≠ [0xff, 0xd8, 0xff, 0xd9].length :=
  ⟨rfl, by decide⟩

/-- C4, corrected: the constructor dispatch.  A non-string input that
is neither a list nor another instance is treated as a file-like
object (the fifth accepted form of the docstring) whose read output is
scanned; an object with no read method fails with AttributeError; a
string without the FF D8 FF signature is treated as a filename.  No
NotAJpegFile error exists anywhere. -/
theorem C4_constructor_dispatch :
    (∀ fs c, jfifInit fs (.fileLike c) = scanSegments c) ∧
    (∀ fs, jfifInit fs .other = .error .attributeError) ∧
    (∀ fs s, s.take 3 ≠ [0xff, 0xd8, 0xff] → jfifInit fs (.str s) = (fs s).bind scanSegments) ∧
    (∀ fs l, jfifInit fs (.list l) = .ok l) ∧
    (∀ fs segs, jfifInit fs (.inst segs) = .ok segs) := by
  refine ⟨fun _ _ => rfl, fun _ => rfl, fun fs s h => ?_, fun _ _ => rfl, fun _ _ => rfl⟩
  show (if s.take 3 = [0xff, 0xd8, 0xff] then scanSegments s
    else (fs s).bind scanSegments) = (fs s).bind scanSegments
  rw [if_neg h]

/-- C4 witness: a one-byte string without the signature goes through
the filename branch and fails on the empty filesystem. -/
theorem C4_constructor_dispatch_witness :
    jfifInit noFS (.str [0x61]) = .error .ioError := by
  have h := C4_constructor_dispatch.2.2.1 noFS [0x61] (by decide)
  rw [h]
  rfl

/-- C4 counterexample: an input with no read method raises
AttributeError, not the NotAJpegFile error the claim names. -/
theorem C4_no_jpeg_error_counterexample :
    jfifInit noFS .other = .error .attributeError ∧
    jfifInit noFS .other ≠ .error .notAJpegFile :=
  ⟨rfl, by decide⟩

/-- C5, corrected: getSize decodes width from payload bytes 3 and 4
and height from bytes 1 and 2 of the first Start-Of-Frame segment, and
returns None, not an error, when no SOF segment exists; the documented
SOF payload example yields width 200 and height 100. -/
theorem C5_dimensions :
    (∀ (pre post : List Segment) (m : Nat) (p : List Nat),
      (∀ s ∈ pre, ¬(0xc0 ≤ s.1 ∧ s.1 ≤ 0xc3)) → (0xc0 ≤ m ∧ m ≤ 0xc3) → 5 ≤ p.length →
      getSize (pre ++ (m, p) :: post) =
        .ok (some (p.getD 3 0 * 256 + p.getD 4 0, p.getD 1 0 * 256 + p.getD 2 0))) ∧
    (∀ segs, (∀ s ∈ segs, ¬(0xc0 ≤ s.1 ∧ s.1 ≤ 0xc3)) → getSize segs = .ok none) ∧
    getSize [(0xc0, [0x01, 0x00, 0x64, 0x00, 0xc8])] = .ok (some (200, 100)) := by
  refine ⟨?_, ?_, rfl⟩
  · intro pre
    induction pre with
    | nil =>
      intro post m p _ hsof hlen
      rw [List.nil_append]
      show (if 0xc0 ≤ m ∧ m ≤ 0xc3 then do
        let b3 ← pyGet p 3
        let b4 ← pyGet p 4
        let b1 ← pyGet p 1
        let b2 ← pyGet p 2
        Except.ok (some (b3 * 256 + b4, b1 * 256 + b2))
        else getSize post) = _
      rw [if_pos hsof]
      rw [pyGet_ok p 3 (by omega), pyGet_ok p 4 (by omega),
        pyGet_ok p 1 (by omega), pyGet_ok p 2 (by omega)]
      rfl
    | cons s pre ih =>
      intro post m p hpre hsof hlen
      obtain ⟨ms, ps⟩ := s
      have hns := hpre (ms, ps) (by simp)
      rw [List.cons_append]
      show (if 0xc0 ≤ ms ∧ ms ≤ 0xc3 then do
        let b3 ← pyGet ps 3
        let b4 ← pyGet ps 4
        let b1 ← pyGet ps 1
        let b2 ← pyGet ps 2
        Except.ok (some (b3 * 256 + b4, b1 * 256 + b2))
        else getSize (pre ++ (m, p) :: post)) = _
      rw [if_neg hns]
      exact ih post m p (fun t ht => hpre t (by simp [ht])) hsof hlen
  · intro segs
    induction segs with
    | nil => intro _; rfl
    | cons s rest ih =>
      intro h
      obtain ⟨ms, ps⟩ := s
      have hns := h (ms, ps) (by simp)
      show (if 0xc0 ≤ ms ∧ ms ≤ 0xc3 then do
        let b3 ← pyGet ps 3
        let b4 ← pyGet ps 4
        let b1 ← pyGet ps 1
        let b2 ← pyGet ps 2
        Except.ok (some (b3 * 256 + b4, b1 * 256 + b2))
        else getSize rest) = _
      rw [if_neg hns]
      exact ih (fun t ht => h t (by simp [ht]))

/-- C5 witness: a concrete SOF_1 container decoded through the general
statement. -/
theorem C5_dimensions_witness :
    getSize [(0xc1, [9, 1, 2, 3, 4])] = .ok (some (772, 258)) := by
  have h := C5_dimensions.1 [] [] 0xc1 [9, 1, 2, 3, 4] (by simp) (by decide) (by decide)
  simpa using h

/-- C5 counterexample: a container with no SOF segment returns None
rather than failing with the DimensionsUnavailable error the claim
names. -/
theorem C5_none_counterexample :
    getSize [(0xfe, [0x61])] = .ok none ∧
    getSize [(0xfe, [0x61])] ≠ .error .dimensionsUnavailable :=
  ⟨rfl, by decide⟩

/-- Stepping the scanner when the index has reached the end. -/
theorem scanLoop_done (img : List Nat) (fuel i : Nat) (acc : List Segment)
    (h : ¬ i < img.length) : scanLoop img (fuel + 1) i acc = .ok acc := by
  rw [scanLoop, if_neg h]

/-- Stepping the scanner over a standalone marker. -/
theorem scanLoop_skip (img : List Nat) (fuel i : Nat) (acc : List Segment) (b : Nat)
    (hlt : i < img.length) (hff : img.getD i 0 = 0xff) (hb : img.get? (i + 1) = some b)
    (hstand : b = 1 ∨ (0xd0 ≤ b ∧ b ≤ 0xd9)) :
    scanLoop img (fuel + 1) i acc = scanLoop img fuel (i + 2) acc := by
  rw [scanLoop, if_pos hlt, hff, if_pos rfl, hb]
  show (if b = 1 ∨ (0xd0 ≤ b ∧ b ≤ 0xd9) then scanLoop img fuel (i + 2) acc else _) = _
  rw [if_pos hstand]

/-- Stepping the scanner over an SOS segment whose terminator search
succeeds. -/
theorem scanLoop_sos (img : List Nat) (fuel i : Nat) (acc : List Segment) (j : Nat)
    (hlt : i < img.length) (hff : img.getD i 0 = 0xff) (hb : img.get? (i + 1) = some 0xda)
    (hsos : sosScan img (img.length + 1) (i + 2) = .ok (some j)) :
    scanLoop img (fuel + 1) i acc =
      scanLoop img fuel j (acc ++ [(0xda, sliceN img (i + 2) j)]) := by
  rw [scanLoop, if_pos hlt, hff, if_pos rfl, hb]
  show (if (0xda : Nat) = 1 ∨ (0xd0 ≤ 0xda ∧ 0xda ≤ 0xd9) then scanLoop img fuel (i + 2) acc
    else if (0xda : Nat) = 0xda then
      match sosScan img (img.length + 1) (i + 2) with
      | Except.error e => Except.error e
      | Except.ok none => scanLoop img fuel (i + 2) acc
      | Except.ok (some j) => scanLoop img fuel j (acc ++ [(0xda, sliceN img (i + 2) j)])
    else
      match img.get? (i + 2), img.get? (i + 3) with
      | some l1, some l2 =>
        scanLoop img fuel (i + 2 + (l1 * 256 + l2))
          (acc ++ [(0xda, sliceN img (i + 4) (i + 2 + (l1 * 256 + l2)))])
      | _, _ => Except.error PyErr.indexError) =
    scanLoop img fuel j (acc ++ [(0xda, sliceN img (i + 2) j)])
  rw [if_neg (by decide), if_pos rfl, hsos]

/-- Stepping the scanner over an ordinary length-prefixed segment. -/
theorem scanLoop_seg (img : List Nat) (fuel i : Nat) (acc : List Segment) (b l1 l2 : Nat)
    (hlt : i < img.length) (hff : img.getD i 0 = 0xff) (hb : img.get? (i + 1) = some b)
    (hstand : ¬(b = 1 ∨ (0xd0 ≤ b ∧ b ≤ 0xd9))) (hda : b ≠ 0xda)
    (h1 : img.get? (i + 2) = some l1) (h2 : img.get? (i + 3) = some l2) :
    scanLoop img (fuel + 1) i acc =
      scanLoop img fuel (i + 2 + (l1 * 256 + l2))
        (acc ++ [(b, sliceN img (i + 4) (i + 2 + (l1 * 256 + l2)))]) := by
  rw [scanLoop, if_pos hlt, hff, if_pos rfl, hb]
  show (if b = 1 ∨ (0xd0 ≤ b ∧ b ≤ 0xd9) then _
    else if b = 0xda then _
    else
      match img.get? (i + 2), img.get? (i + 3) with
      | some l1, some l2 =>
        scanLoop img fuel (i + 2 + (l1 * 256 + l2))
          (acc ++ [(b, sliceN img (i + 4) (i + 2 + (l1 * 256 + l2)))])
      | _, _ => .error .indexError) = _
  rw [if_neg hstand, if_neg hda, h1, h2]

/-- C3, corrected: a length-prefixed payload whose computed slice
exceeds the buffer bounds is silently truncated, with scanning
succeeding on the truncated segment; only out-of-bounds single-byte
reads fail, with IndexError rather than a MalformedContainer error: the
SOS terminator search running past the end of the buffer, and a marker
or length read past the end. -/
theorem C3_out_of_bounds_behavior :
    (∀ (m hi lo : Nat) (p : List Nat), m < 256 → hi < 256 → lo < 256 →
      ¬(m = 1 ∨ (0xd0 ≤ m ∧ m ≤ 0xd9)) → m ≠ 0xda →
      p.length + 2 < hi * 256 + lo →
      scanSegments ([0xff, 0xd8, 0xff, m, hi, lo] ++ p) = .ok [(m, p)]) ∧
    scanSegments [0xff, 0xd8, 0xff, 0xda, 0x41] = .error .indexError ∧
    scanSegments [0xff, 0xd8, 0xff] = .error .indexError := by
  refine ⟨?_, rfl, rfl⟩
  intro m hi lo p _ _ _ hstand hda hln
  unfold scanSegments
  rw [scanLoop_skip ([0xff, 0xd8, 0xff, m, hi, lo] ++ p)
    ([0xff, 0xd8, 0xff, m, hi, lo] ++ p).length 0 [] 0xd8 (by simp) rfl rfl (by decide)]
  rw [show ([0xff, 0xd8, 0xff, m, hi, lo] ++ p).length = p.length + 5 + 1 by simp]
  rw [scanLoop_seg ([0xff, 0xd8, 0xff, m, hi, lo] ++ p) (p.length + 5) (0 + 2) [] m hi lo
    (by simp) rfl rfl hstand hda rfl rfl]
  have hslice : sliceN ([0xff, 0xd8, 0xff, m, hi, lo] ++ p) (0 + 2 + 4)
      (0 + 2 + 2 + (hi * 256 + lo)) = p := by
    have h := sliceN_all [0xff, 0xd8, 0xff, m, hi, lo] p (0 + 2 + 2 + (hi * 256 + lo))
      (by simp; omega)
    simpa using h
  rw [hslice]
  rw [show p.length + 5 = p.length + 4 + 1 from rfl]
  rw [scanLoop_done ([0xff, 0xd8, 0xff, m, hi, lo] ++ p) (p.length + 4)
    (0 + 2 + 2 + (hi * 256 + lo)) ([] ++ [(m, p)]) (by simp; omega)]
  simp

/-- C3 witness: the general truncation statement at the concrete
buffer used by the counterexample. -/
theorem C3_out_of_bounds_behavior_witness :
    scanSegments ([0xff, 0xd8, 0xff, 0xfe, 0x00, 0x05] ++ [0x41]) = .ok [(0xfe, [0x41])] :=
  C3_out_of_bounds_behavior.1 0xfe 0x00 0x05 [0x41] (by decide) (by decide) (by decide)
    (by decide) (by decide) (by decide)

/-- C3 counterexample: a Comment segment advertising a 3-byte payload
of which only one byte exists scans successfully into a truncated
segment list instead of failing with MalformedContainer. -/
theorem C3_no_failure_counterexample :
    scanSegments [0xff, 0xd8, 0xff, 0xfe, 0x00, 0x05, 0x41] = .ok [(0xfe, [0x41])] ∧
    scanSegments [0xff, 0xd8, 0xff, 0xfe, 0x00, 0x05, 0x41] ≠ .error .malformedContainer :=
  ⟨rfl, by decide⟩

/-- Monadic bind on a success value reduces to the continuation. -/
theorem exbind_ok {e a b : Type} (v : a) (f : a → Except e b) :
    (Except.ok v >>= f) = f v := rfl

/-- Monadic bind on an error propagates the error. -/
theorem exbind_err {e a b : Type} (err : e) (f : a → Except e b) :
    ((Except.error err : Except e a) >>= f) = .error err := rfl

/-- Dict assignment never produces an empty dictionary. -/
theorem dictSet_ne_nil (m : List (PyKey × IFDEntry)) (k : PyKey) (v : IFDEntry) :
    dictSet m k v ≠ [] := by
  cases m with
  | nil => simp [dictSet]
  | cons h t =>
    unfold dictSet
    split <;> simp

/-- The entry-decoding loop preserves the dirty-flag invariant. -/
theorem entriesLoop_inv (data : List Nat) : ∀ (n : Nat) (off : Int) (st : Exif) (r : Exif × Int),
    dirtyInv st → entriesLoop data n off st = .ok r → dirtyInv r.1
  | 0, _, _, _, hinv, h => by
    cases h
    exact hinv
  | n + 1, off, st, r, _, h => by
    unfold entriesLoop at h
    cases hd : _decode_tiff_value data off with
    | error e => rw [hd] at h; cases h
    | ok tag =>
      rw [hd] at h
      exact entriesLoop_inv data n (off + 12) _ r (Or.inr ⟨rfl, dictSet_ne_nil _ _ _⟩) h

/-- The directory-chain loop preserves the dirty-flag invariant. -/
theorem exifLoop_inv (data : List Nat) : ∀ (fuel : Nat) (off : Int) (st r : Exif),
    dirtyInv st → exifLoop data fuel off st = .ok r → dirtyInv r
  | 0, _, _, _, _, h => by cases h
  | fuel + 1, off, st, r, hinv, h => by
    unfold exifLoop at h
    cases h2 : unpackI32 (pySliceI data off (off + 4)) with
    | error e => rw [h2] at h; cases h
    | ok off2 =>
      rw [h2, exbind_ok] at h
      by_cases hz : off2 = 0
      · rw [if_pos hz] at h
        cases h
        exact hinv
      · rw [if_neg hz] at h
        cases h3 : unpackH16 (pySliceI data off2 (off2 + 2)) with
        | error e => rw [h3] at h; cases h
        | ok ne =>
          rw [h3, exbind_ok] at h
          cases h4 : entriesLoop data ne.toNat (off2 + 2) st with
          | error e => rw [h4] at h; cases h
          | ok rr =>
            rw [h4, exbind_ok] at h
            exact exifLoop_inv data fuel rr.2 rr.1 r
              (entriesLoop_inv data ne.toNat (off2 + 2) st rr hinv h4) h

/-- C7, corrected: the dirty flag is 1 after construction exactly when
some entry was decoded, because construction inserts through the
mutating setter; it is 0 for the empty input; and every insert or
delete sets it to 1. -/
theorem C7_dirty_flag :
    (∀ (data : List Nat) (st : Exif), exifInit data = .ok st →
      (st.dirty = 1 ↔ st.entries ≠ [])) ∧
    (∀ (st : Exif) (k : PyKey) (v : IFDEntry), (exifSetitem st k v).dirty = 1) ∧
    (∀ (st : Exif) (k : PyKey) (r : Exif), exifDelitem st k = .ok r → r.dirty = 1) ∧
    exifInit [] = .ok ⟨[], 0⟩ := by
  refine ⟨?_, fun _ _ _ => rfl, ?_, rfl⟩
  · intro data st h
    have hinv : dirtyInv st := by
      unfold exifInit at h
      by_cases hd : data.length = 0
      · rw [if_pos hd] at h
        cases h
        exact Or.inl ⟨rfl, rfl⟩
      · rw [if_neg hd] at h
        cases hb0 : pyGet data 0 with
        | error e => rw [hb0, exbind_err] at h; cases h
        | ok b0 =>
          rw [hb0, exbind_ok] at h
          by_cases h73 : b0 ≠ 73
          · rw [if_pos h73] at h; cases h
          · rw [if_neg h73] at h
            cases hb1 : pyGet data 1 with
            | error e => rw [hb1, exbind_err] at h; cases h
            | ok b1 =>
              rw [hb1, exbind_ok] at h
              by_cases h73b : b1 ≠ 73
              · rw [if_pos h73b] at h; cases h
              · rw [if_neg h73b] at h
                cases hm : unpackXXH (pySliceI data 0 4) with
                | error e => rw [hm, exbind_err] at h; cases h
                | ok magic =>
                  rw [hm, exbind_ok] at h
                  by_cases h42 : magic ≠ 42
                  · rw [if_pos h42] at h; cases h
                  · rw [if_neg h42] at h
                    exact exifLoop_inv data (data.length + 1) 4 ⟨[], 0⟩ st
                      (Or.inl ⟨rfl, rfl⟩) h
    cases hinv with
    | inl hl => rw [hl.1, hl.2]; simp
    | inr hr => rw [hr.1]; simp [hr.2]
  · intro st k r h
    unfold exifDelitem at h
    cases hd : dictDel st.entries (normalizeKey k) with
    | error e => rw [hd] at h; cases h
    | ok m => rw [hd] at h; cases h; rfl

/-- C7 witness: a delete on a concrete one-entry table goes through
the mutating path and reports dirty. -/
theorem C7_dirty_flag_witness :
    exifDelitem ⟨[(PyKey.int 5, IFDEntry.make 5 (.int 0) none)], 0⟩ (PyKey.int 5) =
      .ok ⟨[], 1⟩ ∧ (⟨[], 1⟩ : Exif).dirty = 1 :=
  ⟨rfl, C7_dirty_flag.2.2.1 ⟨[(PyKey.int 5, IFDEntry.make 5 (.int 0) none)], 0⟩
    (PyKey.int 5) ⟨[], 1⟩ rfl⟩

/-- C7 counterexample: constructing from a nonempty Exif block holding
one decodable entry leaves the dirty flag set, contradicting the claim
that it is false immediately after every construction. -/
theorem C7_construction_dirty_counterexample :
    (exifInit [0x49, 0x49, 0x2A, 0x00, 0x08, 0, 0, 0, 0x01, 0x00,
      0x00, 0x01, 0x03, 0x00, 0x01, 0, 0, 0, 0x07, 0, 0, 0, 0, 0, 0, 0]).map Exif.dirty =
      .ok 1 ∧
    (exifInit [0x49, 0x49, 0x2A, 0x00, 0x08, 0, 0, 0, 0x01, 0x00,
      0x00, 0x01, 0x03, 0x00, 0x01, 0, 0, 0, 0x07, 0, 0, 0, 0, 0, 0, 0]).map Exif.dirty ≠
      .ok 0 :=
  ⟨rfl, by decide⟩

/-- C6, corrected: the outer loop of the decoder re-reads the 4-byte
offset at the position the entry loop stopped at, which is the
standard trailing next-IFD slot just past the last 12-byte entry, so a
chained multi-directory block has every directory decoded.  The first
part shows the entry loop always stops 12 times the entry count past
its start; the second runs a concrete two-directory chain and obtains
the entries of both directories. -/
theorem C6_chain_traversal :
    (∀ (data : List Nat) (n : Nat) (off : Int) (st : Exif) (r : Exif × Int),
      entriesLoop data n off st = .ok r → r.2 = off + 12 * n) ∧
    exifInit [0x49, 0x49, 0x2A, 0x00, 0x08, 0, 0, 0,
        0x01, 0x00, 0x00, 0x01, 0x03, 0x00, 0x01, 0, 0, 0, 0x80, 0x02, 0, 0,
        0x1A, 0, 0, 0,
        0x01, 0x00, 0x01, 0x01, 0x03, 0x00, 0x01, 0, 0, 0, 0xE0, 0x01, 0, 0,
        0, 0, 0, 0] =
      .ok ⟨[(.int 256, ⟨some 3, 256, .int 640, some "ImageWidth"⟩),
            (.int 257, ⟨some 3, 257, .int 480, some "ImageLength"⟩)], 1⟩ := by
  constructor
  · intro data n
    induction n with
    | zero =>
      intro off st r h
      cases h
      simp
    | succ n ih =>
      intro off st r h
      unfold entriesLoop at h
      cases hd : _decode_tiff_value data off with
      | error e => rw [hd] at h; cases h
      | ok tag =>
        rw [hd] at h
        have h2 := ih (off + 12) (exifSetitem st (.int tag.id) tag) r h
        rw [h2]
        push_cast
        ring
  · rfl

/-- C6 witness: the entry-loop offset statement applied to a concrete
one-entry run. -/
theorem C6_chain_traversal_witness :
    entriesLoop [0x1A, 0x01, 0x05, 0x00, 0x01, 0, 0, 0, 0x0C, 0, 0, 0,
        0x01, 0, 0, 0, 0x02, 0, 0, 0] 1 0 ⟨[], 0⟩ =
      .ok (⟨[(.int 282, ⟨some 5, 282, .int 0, some "XResolution"⟩)], 1⟩, 12) ∧
    ((⟨[(.int 282, ⟨some 5, 282, .int 0, some "XResolution"⟩)], 1⟩, (12 : Int)) :
      Exif × Int).2 = 0 + 12 * 1 :=
  ⟨rfl, C6_chain_traversal.1 [0x1A, 0x01, 0x05, 0x00, 0x01, 0, 0, 0, 0x0C, 0, 0, 0,
    0x01, 0, 0, 0, 0x02, 0, 0, 0] 1 0 ⟨[], 0⟩ _ rfl⟩

/-- C6 counterexample: on the same two-directory chain the resulting
table contains the entry of the second directory, so more than the
single first directory is traversed. -/
theorem C6_second_directory_counterexample :
    (exifInit [0x49, 0x49, 0x2A, 0x00, 0x08, 0, 0, 0,
        0x01, 0x00, 0x00, 0x01, 0x03, 0x00, 0x01, 0, 0, 0, 0x80, 0x02, 0, 0,
        0x1A, 0, 0, 0,
        0x01, 0x00, 0x01, 0x01, 0x03, 0x00, 0x01, 0, 0, 0, 0xE0, 0x01, 0, 0,
        0, 0, 0, 0]).map (fun st => dictGet st.entries (.int 257)) =
      .ok (some ⟨some 3, 257, .int 480, some "ImageLength"⟩) ∧
    (exifInit [0x49, 0x49, 0x2A, 0x00, 0x08, 0, 0, 0,
        0x01, 0x00, 0x00, 0x01, 0x03, 0x00, 0x01, 0, 0, 0, 0x80, 0x02, 0, 0,
        0x1A, 0, 0, 0,
        0x01, 0x00, 0x01, 0x01, 0x03, 0x00, 0x01, 0, 0, 0, 0xE0, 0x01, 0, 0,
        0, 0, 0, 0]).map (fun st => dictGet st.entries (.int 257)) ≠
      .ok none :=
  ⟨rfl, by decide⟩

/-- C8, confirmed: every successfully decoded entry of type Rational
carries as its value the truncating integer quotient of the two 4-byte
unsigned little-endian integers read at its value offset. -/
theorem C8_rational_truncating_div (data : List Nat) (off : Int) (e : IFDEntry)
    (h : _decode_tiff_value data off = .ok e) (htyp : e.typ = some 5) :
    e.value = .int (leNat ((tiffRatBytes data off).take 4) /
      leNat ((tiffRatBytes data off).drop 4)) := by
  unfold _decode_tiff_value at h
  by_cases h12 : (tiffChunk data off).length ≠ 12
  · rw [if_pos h12] at h; cases h
  · rw [if_neg h12] at h
    simp only [] at h
    by_cases h1 : tiffTyp data off = 1
    · rw [if_pos h1] at h
      cases h
      simp [IFDEntry.make, h1] at htyp
    · rw [if_neg h1] at h
      by_cases h2 : tiffTyp data off = 2
      · rw [if_pos h2] at h
        cases h
        simp [IFDEntry.make, h2] at htyp
      · rw [if_neg h2] at h
        by_cases h3 : tiffTyp data off = 3
        · rw [if_pos h3] at h
          cases h
          simp [IFDEntry.make, h3] at htyp
        · rw [if_neg h3] at h
          by_cases h4 : tiffTyp data off = 4
          · rw [if_pos h4] at h
            cases h
            simp [IFDEntry.make, h4] at htyp
          · rw [if_neg h4] at h
            by_cases h5 : tiffTyp data off = 5
            · rw [if_pos h5] at h
              by_cases h8 : (tiffRatBytes data off).length ≠ 8
              · rw [if_pos h8] at h; cases h
              · rw [if_neg h8] at h
                by_cases hz : leNat ((tiffRatBytes data off).drop 4) = 0
                · rw [if_pos hz] at h; cases h
                · rw [if_neg hz] at h
                  cases h
                  rfl
            · rw [if_neg h5] at h; cases h

/-- C8 witness: a concrete Rational entry with numerator 1 and
denominator 2 decodes to the truncated value 0. -/
theorem C8_rational_truncating_div_witness :
    _decode_tiff_value [0x1A, 0x01, 0x05, 0x00, 0x01, 0, 0, 0, 0x0C, 0, 0, 0,
        0x01, 0, 0, 0, 0x02, 0, 0, 0] 0 =
      .ok ⟨some 5, 282, .int 0, some "XResolution"⟩ ∧
    (⟨some 5, 282, PyVal.int 0, some "XResolution"⟩ : IFDEntry).value =
      .int (leNat ((tiffRatBytes [0x1A, 0x01, 0x05, 0x00, 0x01, 0, 0, 0, 0x0C, 0, 0, 0,
        0x01, 0, 0, 0, 0x02, 0, 0, 0] 0).take 4) /
        leNat ((tiffRatBytes [0x1A, 0x01, 0x05, 0x00, 0x01, 0, 0, 0, 0x0C, 0, 0, 0,
        0x01, 0, 0, 0, 0x02, 0, 0, 0] 0).drop 4)) :=
  ⟨rfl, C8_rational_truncating_div [0x1A, 0x01, 0x05, 0x00, 0x01, 0, 0, 0, 0x0C, 0, 0, 0,
    0x01, 0, 0, 0, 0x02, 0, 0, 0] 0 ⟨some 5, 282, .int 0, some "XResolution"⟩ rfl rfl⟩

/-- C10, confirmed: a Rational entry whose stored denominator is zero
hits the unguarded division and raises ZeroDivisionError, so the
Rational branch of entry decoding is not total. -/
theorem C10_rational_zero_denominator (data : List Nat) (off : Int)
    (h12 : (tiffChunk data off).length = 12) (htyp : tiffTyp data off = 5)
    (h8 : (tiffRatBytes data off).length = 8)
    (hz : leNat ((tiffRatBytes data off).drop 4) = 0) :
    _decode_tiff_value data off = .error .zeroDivisionError := by
  unfold _decode_tiff_value
  rw [if_neg (show ¬(tiffChunk data off).length ≠ 12 by omega)]
  simp only []
  rw [htyp]
  rw [if_neg (by decide), if_neg (by decide), if_neg (by decide), if_neg (by decide),
    if_pos rfl, if_neg (show ¬(tiffRatBytes data off).length ≠ 8 by omega), if_pos hz]

/-- C10 witness: a concrete Rational entry with denominator bytes all
zero raises the division error. -/
theorem C10_rational_zero_denominator_witness :
    (tiffChunk [0x1A, 0x01, 0x05, 0x00, 0x01, 0, 0, 0, 0x0C, 0, 0, 0,
        0x01, 0, 0, 0, 0, 0, 0, 0] 0).length = 12 ∧
    tiffTyp [0x1A, 0x01, 0x05, 0x00, 0x01, 0, 0, 0, 0x0C, 0, 0, 0,
        0x01, 0, 0, 0, 0, 0, 0, 0] 0 = 5 ∧
    _decode_tiff_value [0x1A, 0x01, 0x05, 0x00, 0x01, 0, 0, 0, 0x0C, 0, 0, 0,
        0x01, 0, 0, 0, 0, 0, 0, 0] 0 = .error .zeroDivisionError :=
  ⟨rfl, rfl, C10_rational_zero_denominator [0x1A, 0x01, 0x05, 0x00, 0x01, 0, 0, 0,
    0x0C, 0, 0, 0, 0x01, 0, 0, 0, 0, 0, 0, 0] 0 rfl rfl rfl rfl⟩

/-- Reductions for the Except combinators used by the digest stream. -/
theorem exBindM_ok {e a b : Type} (v : a) (f : a → Except e b) :
    Except.bind (Except.ok v) f = f v := rfl

/-- Error propagation for the Except bind combinator. -/
theorem exBindM_err {e a b : Type} (err : e) (f : a → Except e b) :
    Except.bind (Except.error err : Except e a) f = .error err := rfl

/-- Reduction for the Except map combinator on success. -/
theorem exMap_ok {e a b : Type} (v : a) (f : a → b) :
    Except.map f (Except.ok v : Except e a) = .ok (f v) := rfl

/-- Error propagation for the Except map combinator. -/
theorem exMap_err {e a b : Type} (err : e) (f : a → b) :
    Except.map f (Except.error err : Except e a) = .error err := rfl

/-- Unfolding equation of the digest stream on a cons cell. -/
theorem md5Input_cons (m : Nat) (p : List Nat) (rest : List Segment) :
    md5Input ((m, p) :: rest) =
      if m = 0xfe then md5Input rest
      else if 0xe0 ≤ m ∧ m ≤ 0xef then md5Input rest
      else (do
        let c ← pyChr m
        let tail ← md5Input rest
        Except.ok (c :: (p ++ tail))) := rfl

/-- The digest input stream is compositional over list append. -/
theorem md5Input_append : ∀ (xs ys : List Segment),
    md5Input (xs ++ ys) =
      Except.bind (md5Input xs) (fun a => Except.map (fun b => a ++ b) (md5Input ys))
  | [], ys => by
    cases h : md5Input ys with
    | error e => rw [List.nil_append, h, show md5Input [] = .ok [] from rfl, exBindM_ok, exMap_err]
    | ok b => rw [List.nil_append, h, show md5Input [] = .ok [] from rfl, exBindM_ok, exMap_ok]; simp
  | (m, p) :: xs, ys => by
    have ih := md5Input_append xs ys
    rw [List.cons_append, md5Input_cons m p (xs ++ ys), md5Input_cons m p xs]
    by_cases hc : m = 0xfe
    · rw [if_pos hc, if_pos hc]
      exact ih
    · by_cases ha : 0xe0 ≤ m ∧ m ≤ 0xef
      · rw [if_neg hc, if_pos ha, if_neg hc, if_pos ha]
        exact ih
      · rw [if_neg hc, if_neg ha, if_neg hc, if_neg ha]
        cases hm : pyChr m with
        | error e => rw [exbind_err, exbind_err, exBindM_err]
        | ok c =>
          rw [exbind_ok, exbind_ok, ih]
          cases ht : md5Input xs with
          | error e => simp only [exBindM_err, exbind_err]
          | ok t =>
            rw [exBindM_ok, exbind_ok, exBindM_ok]
            cases hy : md5Input ys with
            | error e => simp only [exMap_err, exbind_err]
            | ok b =>
              simp only [exMap_ok, exbind_ok]
              simp

/-- The modelled hex digest is injective on byte streams. -/
theorem md5hex_inj : ∀ (xs ys : List Nat), md5hex xs = md5hex ys → xs = ys
  | [], [], _ => rfl
  | [], _ :: _, h => by simp [md5hex] at h
  | _ :: _, [], h => by simp [md5hex] at h
  | a :: xs, b :: ys, h => by
    simp only [md5hex, List.flatMap_cons, List.cons_append, List.nil_append,
      List.cons.injEq] at h
    obtain ⟨h1, h2, h3⟩ := h
    have hab : a = b := by
      have hda := Nat.div_add_mod a 16
      have hdb := Nat.div_add_mod b 16
      omega
    have htail : xs = ys := md5hex_inj xs ys (by simpa [md5hex] using h3)
    rw [hab, htail]

/-- C9, confirmed: changing only the payload of a Comment or
Application segment leaves the fingerprint unchanged, while changing
the payload of any fed segment changes it, because the fed streams are
then distinct and the modelled digest is injective. -/
theorem C9_fingerprint :
    (∀ (pre post : List Segment) (m : Nat) (p q : List Nat),
      (m = 0xfe ∨ (0xe0 ≤ m ∧ m ≤ 0xef)) →
      getMD5 (pre ++ (m, p) :: post) = getMD5 (pre ++ (m, q) :: post)) ∧
    (∀ (pre post : List Segment) (m : Nat) (p q : List Nat) (d1 d2 : List Nat),
      ¬(m = 0xfe ∨ (0xe0 ≤ m ∧ m ≤ 0xef)) → p ≠ q →
      getMD5 (pre ++ (m, p) :: post) = .ok d1 → getMD5 (pre ++ (m, q) :: post) = .ok d2 →
      d1 ≠ d2) := by
  constructor
  · intro pre post m p q hskip
    have hp : md5Input ((m, p) :: post) = md5Input post := by
      rw [md5Input_cons]
      rcases hskip with hc | ha
      · rw [if_pos hc]
      · by_cases hc : m = 0xfe
        · rw [if_pos hc]
        · rw [if_neg hc, if_pos ha]
    have hq : md5Input ((m, q) :: post) = md5Input post := by
      rw [md5Input_cons]
      rcases hskip with hc | ha
      · rw [if_pos hc]
      · by_cases hc : m = 0xfe
        · rw [if_pos hc]
        · rw [if_neg hc, if_pos ha]
    unfold getMD5
    rw [md5Input_append, md5Input_append, hp, hq]
  · intro pre post m p q d1 d2 hskip hpq h1 h2
    have hnc : m ≠ 0xfe := fun hc => hskip (Or.inl hc)
    have hna : ¬(0xe0 ≤ m ∧ m ≤ 0xef) := fun ha => hskip (Or.inr ha)
    unfold getMD5 at h1 h2
    rw [md5Input_append, md5Input_cons, if_neg hnc, if_neg hna] at h1
    rw [md5Input_append, md5Input_cons, if_neg hnc, if_neg hna] at h2
    cases ha : md5Input pre with
    | error e =>
      rw [ha, exBindM_err, exMap_err] at h1
      cases h1
    | ok a =>
      rw [ha, exBindM_ok] at h1 h2
      cases hc : pyChr m with
      | error e =>
        rw [hc, exbind_err, exMap_err, exMap_err] at h1
        cases h1
      | ok c =>
        rw [hc, exbind_ok] at h1 h2
        cases htl : md5Input post with
        | error e =>
          rw [htl, exbind_err, exMap_err, exMap_err] at h1
          cases h1
        | ok t =>
          rw [htl, exbind_ok, exMap_ok, exMap_ok] at h1 h2
          cases h1
          cases h2
          intro heq
          have hstream := md5hex_inj _ _ heq
          have hmid := List.append_cancel_left hstream
          rw [List.cons.injEq] at hmid
          exact hpq (List.append_cancel_right hmid.2)

/-- C9 witness: two one-segment containers differing only in a Comment
payload have equal fingerprints. -/
theorem C9_fingerprint_witness :
    getMD5 [(0xfe, [0x61])] = getMD5 [(0xfe, [0x62])] :=
  C9_fingerprint.1 [] [] 0xfe [0x61] [0x62] (Or.inl rfl)

/-- What a successful SOS terminator search guarantees: the returned
position is past the start, the lookahead byte exists, the pair at the
position matches the terminator and no earlier pair does. -/
theorem sosScan_some (img : List Nat) : ∀ (fuel j r : Nat),
    sosScan img fuel j = .ok (some r) →
    j ≤ r ∧ r + 1 < img.length ∧ termPair (img.getD r 0) (img.getD (r + 1) 0) ∧
    ∀ k, j ≤ k → k < r → ¬ termPair (img.getD k 0) (img.getD (k + 1) 0)
  | 0, _, _, h => by cases h
  | fuel + 1, j, r, h => by
    unfold sosScan at h
    by_cases hj : j < img.length
    · rw [if_pos hj] at h
      cases hg : img.get? (j + 1) with
      | none => rw [hg] at h; cases h
      | some b3 =>
        rw [hg] at h
        have hb3 : img.getD (j + 1) 0 = b3 := by
          rw [List.getD_eq_getElem?_getD, ← List.get?_eq_getElem?, hg]
          rfl
        obtain ⟨hj1, _⟩ := List.get?_eq_some.mp hg
        have h5 : (if termPair (img.getD j 0) b3 then Except.ok (some j)
            else sosScan img fuel (j + 1)) = Except.ok (some r) := h
        by_cases ht : termPair (img.getD j 0) b3
        · rw [if_pos ht] at h5
          cases h5
          refine ⟨Nat.le_refl j, hj1, ?_, ?_⟩
          · rw [hb3]
            exact ht
          · intro k hk1 hk2
            omega
        · rw [if_neg ht] at h5
          obtain ⟨ih1, ih2, ih3, ih4⟩ := sosScan_some img fuel (j + 1) r h5
          refine ⟨by omega, ih2, ih3, ?_⟩
          intro k hk1 hk2
          by_cases hkj : k = j
          · subst hkj
            rw [hb3]
            exact ht
          · exact ih4 k (by omega) hk2
    · rw [if_neg hj] at h
      cases h

/-- Dropping the head of a payload keeps its interior terminator-free. -/
theorem noTermInside_tail (a : Nat) (p : List Nat) (h : noTermInside (a :: p)) :
    noTermInside p := by
  intro k hk
  have h2 := h (k + 1) (by simpa using Nat.succ_lt_succ hk)
  simpa using h2

/-- Dropping the head of a well-shaped SOS payload keeps it well
shaped. -/
theorem sosPayloadOk_tail (a : Nat) (p : List Nat) (h : sosPayloadOk (a :: p)) :
    sosPayloadOk p := by
  obtain ⟨h1, h2⟩ := h
  refine ⟨noTermInside_tail a p h1, ?_⟩
  intro hne
  have hlen : 1 ≤ p.length := by
    cases p with
    | nil => exact absurd rfl hne
    | cons _ _ => simp
  have h3 := h2 (by simp)
  simp only [List.length_cons, Nat.add_sub_cancel] at h3
  rw [show p.length = p.length - 1 + 1 by omega, List.getD_cons_succ] at h3
  exact h3

/-- getD at the boundary of an append reads the head of the right
part. -/
theorem getD_append_len (l1 l2 : List Nat) (d : Nat) :
    (l1 ++ l2).getD l1.length d = l2.getD 0 d := by
  have h := getD_append_add l1 l2 0 d
  simpa using h

/-- Stepping the SOS search onto a terminator pair. -/
theorem sosScan_step_hit (img : List Nat) (fuel j : Nat) (b3 : Nat)
    (hj : j < img.length) (hg : img.get? (j + 1) = some b3)
    (ht : termPair (img.getD j 0) b3) :
    sosScan img (fuel + 1) j = .ok (some j) := by
  rw [sosScan, if_pos hj, hg]
  show (if termPair (img.getD j 0) b3 then Except.ok (some j)
    else sosScan img fuel (j + 1)) = _
  rw [if_pos ht]

/-- Stepping the SOS search over a non-terminator pair. -/
theorem sosScan_step_miss (img : List Nat) (fuel j : Nat) (b3 : Nat)
    (hj : j < img.length) (hg : img.get? (j + 1) = some b3)
    (ht : ¬ termPair (img.getD j 0) b3) :
    sosScan img (fuel + 1) j = sosScan img fuel (j + 1) := by
  rw [sosScan, if_pos hj, hg]
  show (if termPair (img.getD j 0) b3 then Except.ok (some j)
    else sosScan img fuel (j + 1)) = _
  rw [if_neg ht]

/-- Running the SOS search over a well-shaped payload followed by a
terminator: it stops exactly at the byte after the payload. -/
theorem sosScan_encoded : ∀ (p pre : List Nat) (m2 : Nat) (rest2 : List Nat) (fuel : Nat),
    sosPayloadOk p → m2 ≠ 0 → ¬(0xd0 ≤ m2 ∧ m2 ≤ 0xd7) → p.length < fuel →
    sosScan (pre ++ p ++ 0xff :: m2 :: rest2) fuel pre.length =
      .ok (some (pre.length + p.length))
  | [], pre, m2, rest2, fuel, hok, hm2, hr, hfuel => by
    cases fuel with
    | zero => omega
    | succ f =>
      rw [show (pre ++ [] ++ 0xff :: m2 :: rest2) = pre ++ 0xff :: m2 :: rest2 by simp]
      have hg : (pre ++ 0xff :: m2 :: rest2).get? (pre.length + 1) = some m2 := by
        rw [get?_append_add]
        rfl
      have hd : (pre ++ 0xff :: m2 :: rest2).getD pre.length 0 = 0xff := by
        rw [getD_append_len]
        rfl
      rw [sosScan_step_hit _ f pre.length m2 (by simp) hg (by rw [hd]; exact ⟨rfl, hm2, hr⟩)]
      simp
  | a :: p2, pre, m2, rest2, fuel, hok, hm2, hr, hfuel => by
    cases fuel with
    | zero => omega
    | succ f =>
      have himg : pre ++ (a :: p2) ++ 0xff :: m2 :: rest2 =
          pre ++ (a :: (p2 ++ 0xff :: m2 :: rest2)) := by simp
      have hd : (pre ++ (a :: p2) ++ 0xff :: m2 :: rest2).getD pre.length 0 = a := by
        rw [himg, getD_append_len]
        rfl
      have hnt : ∀ b3, (p2 ++ 0xff :: m2 :: rest2).get? 0 = some b3 →
          ¬ termPair a b3 := by
        intro b3 hb3 hterm
        cases p2 with
        | nil =>
          simp at hb3
          have ha : a ≠ 0xff := by
            have h2 := hok.2 (by simp)
            simpa using h2
          exact ha (by rw [← hb3] at hterm; exact hterm.1)
        | cons c p3 =>
          simp at hb3
          have h0 := hok.1 0 (by simp)
          rw [← hb3] at hterm
          exact h0 hterm
      cases hb3 : (p2 ++ 0xff :: m2 :: rest2).get? 0 with
      | none =>
        exfalso
        cases p2 with
        | nil => simp at hb3
        | cons c p3 => simp at hb3
      | some b3 =>
        have hg : (pre ++ (a :: p2) ++ 0xff :: m2 :: rest2).get? (pre.length + 1) =
            some b3 := by
          rw [himg, get?_append_add]
          simpa using hb3
        rw [sosScan_step_miss _ f pre.length b3 (by simp) hg (by rw [hd]; exact hnt b3 hb3)]
        have hre : pre ++ (a :: p2) ++ 0xff :: m2 :: rest2 =
            (pre ++ [a]) ++ p2 ++ 0xff :: m2 :: rest2 := by simp
        have hlen2 : pre.length + 1 = (pre ++ [a]).length := by simp
        rw [hre, hlen2]
        rw [show pre.length + (a :: p2).length = (pre ++ [a]).length + p2.length by
          simp
          omega]
        exact sosScan_encoded p2 (pre ++ [a]) m2 rest2 f (sosPayloadOk_tail a p2 hok)
          hm2 hr (by simp at hfuel ⊢; omega)

/-- The payload sliced out by a successful SOS search is well shaped:
its interior has no terminator pair and it cannot end in 0xFF, since
the pair straddling the boundary was rejected while the terminator
byte is 0xFF. -/
theorem sos_slice_ok (img : List Nat) (i j : Nat) (hij : i ≤ j) (hjl : j + 1 < img.length)
    (hterm : termPair (img.getD j 0) (img.getD (j + 1) 0))
    (hno : ∀ k, i ≤ k → k < j → ¬ termPair (img.getD k 0) (img.getD (k + 1) 0)) :
    sosPayloadOk (sliceN img i j) := by
  have hlen : (sliceN img i j).length = j - i := by
    rw [sliceN_length]
    omega
  constructor
  · intro k hk
    rw [sliceN_getD _ _ _ _ (by omega), sliceN_getD _ _ _ _ (by omega)]
    rw [show i + (k + 1) = (i + k) + 1 by omega]
    exact hno (i + k) (by omega) (by omega)
  · intro hne
    have h1 : 1 ≤ (sliceN img i j).length := List.length_pos.mpr hne
    rw [hlen]
    rw [sliceN_getD _ _ _ _ (by omega)]
    rw [show i + (j - i - 1) = j - 1 by omega]
    intro hff
    apply hno (j - 1) (by omega) (by omega)
    rw [show j - 1 + 1 = j by omega, hff, hterm.1]
    exact ⟨rfl, by decide, by decide⟩

/-- An ordinary segment sliced out by the scanner is well formed: its
marker and length bytes come from the byte buffer and the payload can
never exceed the 16-bit length minus the 2 length bytes. -/
theorem seg_slice_wf (img : List Nat) (hbytes : ∀ b ∈ img, b < 256) (i b l1 l2 : Nat)
    (hb : img.get? (i + 1) = some b) (h1 : img.get? (i + 2) = some l1)
    (h2 : img.get? (i + 3) = some l2)
    (hstand : ¬(b = 1 ∨ (0xd0 ≤ b ∧ b ≤ 0xd9))) (hda : b ≠ 0xda) :
    segWF (b, sliceN img (i + 4) (i + 2 + (l1 * 256 + l2))) := by
  have hbm : b < 256 := hbytes b (List.get?_mem hb)
  have hl1 : l1 < 256 := hbytes l1 (List.get?_mem h1)
  have hl2 : l2 < 256 := hbytes l2 (List.get?_mem h2)
  rw [not_or] at hstand
  unfold segWF
  rw [if_neg hda]
  refine ⟨hbm, hstand.1, hstand.2, ?_⟩
  have hsl := sliceN_length img (i + 4) (i + 2 + (l1 * 256 + l2))
  simp only []
  omega

/-- Every segment produced by the scanner from a byte buffer is well
formed. -/
theorem scanLoop_out_wf (img : List Nat) (hbytes : ∀ b ∈ img, b < 256) :
    ∀ (fuel i : Nat) (acc segs : List Segment),
      scanLoop img fuel i acc = .ok segs → (∀ s ∈ acc, segWF s) → ∀ s ∈ segs, segWF s
  | 0, _, _, _, h, _ => by cases h
  | fuel + 1, i, acc, segs, h, hacc => by
    unfold scanLoop at h
    by_cases hi : i < img.length
    · rw [if_pos hi] at h
      by_cases hff : img.getD i 0 = 0xff
      · rw [hff, if_pos rfl] at h
        cases hb : img.get? (i + 1) with
        | none => rw [hb] at h; cases h
        | some b =>
          rw [hb] at h
          have h5 : (if b = 1 ∨ (0xd0 ≤ b ∧ b ≤ 0xd9) then scanLoop img fuel (i + 2) acc
              else if b = 0xda then
                match sosScan img (img.length + 1) (i + 2) with
                | .error e => .error e
                | .ok none => scanLoop img fuel (i + 2) acc
                | .ok (some j) => scanLoop img fuel j (acc ++ [(0xda, sliceN img (i + 2) j)])
              else
                match img.get? (i + 2), img.get? (i + 3) with
                | some l1, some l2 =>
                  scanLoop img fuel (i + 2 + (l1 * 256 + l2))
                    (acc ++ [(b, sliceN img (i + 4) (i + 2 + (l1 * 256 + l2)))])
                | _, _ => .error .indexError) = Except.ok segs := h
          by_cases hst : b = 1 ∨ (0xd0 ≤ b ∧ b ≤ 0xd9)
          · rw [if_pos hst] at h5
            exact scanLoop_out_wf img hbytes fuel (i + 2) acc segs h5 hacc
          · rw [if_neg hst] at h5
            by_cases hda : b = 0xda
            · rw [if_pos hda] at h5
              cases hs : sosScan img (img.length + 1) (i + 2) with
              | error e => rw [hs] at h5; cases h5
              | ok o =>
                cases o with
                | none =>
                  rw [hs] at h5
                  exact scanLoop_out_wf img hbytes fuel (i + 2) acc segs h5 hacc
                | some j =>
                  rw [hs] at h5
                  obtain ⟨hj1, hj2, hj3, hj4⟩ := sosScan_some img (img.length + 1) (i + 2) j hs
                  refine scanLoop_out_wf img hbytes fuel j
                    (acc ++ [(0xda, sliceN img (i + 2) j)]) segs h5 ?_
                  intro s hmem
                  rw [List.mem_append] at hmem
                  cases hmem with
                  | inl hl => exact hacc s hl
                  | inr hr =>
                    have hs2 : s = (0xda, sliceN img (i + 2) j) := by simpa using hr
                    rw [hs2]
                    unfold segWF
                    rw [if_pos rfl]
                    exact sos_slice_ok img (i + 2) j hj1 hj2 hj3 hj4
            · rw [if_neg hda] at h5
              cases hg1 : img.get? (i + 2) with
              | none =>
                rw [hg1] at h5
                cases hg2 : img.get? (i + 3) with
                | none => rw [hg2] at h5; cases h5
                | some l2 => rw [hg2] at h5; cases h5
              | some l1 =>
                rw [hg1] at h5
                cases hg2 : img.get? (i + 3) with
                | none => rw [hg2] at h5; cases h5
                | some l2 =>
                  rw [hg2] at h5
                  refine scanLoop_out_wf img hbytes fuel (i + 2 + (l1 * 256 + l2))
                    (acc ++ [(b, sliceN img (i + 4) (i + 2 + (l1 * 256 + l2)))]) segs h5 ?_
                  intro s hmem
                  rw [List.mem_append] at hmem
                  cases hmem with
                  | inl hl => exact hacc s hl
                  | inr hr =>
                    have hs2 : s = (b, sliceN img (i + 4) (i + 2 + (l1 * 256 + l2))) := by
                      simpa using hr
                    rw [hs2]
                    exact seg_slice_wf img hbytes i b l1 l2 hb hg1 hg2 hst hda
      · rw [if_neg hff] at h
        exact scanLoop_out_wf img hbytes fuel (i + 1) acc segs h hacc
    · rw [if_neg hi] at h
      cases h
      exact hacc

/-- A well-formed segment encodes to the pure encoding. -/
theorem encodeSeg_ok (s : Segment) (h : segWF s) : encodeSeg s = .ok (encSeg s) := by
  unfold encodeSeg encSeg
  by_cases hm : s.1 = 0xda
  · rw [if_pos hm, if_pos hm]
  · rw [if_neg hm, if_neg hm]
    unfold segWF at h
    rw [if_neg hm] at h
    obtain ⟨h1, _, _, h4⟩ := h
    have hhi : (s.2.length + 2) >>> 8 = (s.2.length + 2) / 256 := by
      rw [Nat.shiftRight_eq_div_pow]
    have hlo : (s.2.length + 2) &&& 0xff = (s.2.length + 2) % 256 := by
      have h2 := Nat.and_pow_two_sub_one_eq_mod (s.2.length + 2) 8
      norm_num at h2
      exact h2
    rw [pyChr_ok _ h1, exbind_ok, hhi, pyChr_ok _ (by omega), exbind_ok,
      hlo, pyChr_ok _ (by omega), exbind_ok]

/-- A list of well-formed segments encodes to the pure encoding. -/
theorem encodeSegs_ok : ∀ (segs : List Segment), (∀ s ∈ segs, segWF s) →
    encodeSegs segs = .ok (encSegs segs)
  | [], _ => rfl
  | s :: rest, h => by
    unfold encodeSegs
    rw [encodeSeg_ok s (h s (by simp)), exbind_ok,
      encodeSegs_ok rest (fun t ht => h t (by simp [ht])), exbind_ok]
    rfl

/-- getBytes on well-formed segments produces SOI, the pure encoding
and EOI. -/
theorem getBytes_ok (segs : List Segment) (h : ∀ s ∈ segs, segWF s) :
    getBytes segs = .ok ([0xff, 0xd8] ++ encSegs segs ++ [0xff, 0xd9]) := by
  unfold getBytes
  rw [encodeSegs_ok segs h, exbind_ok]

/-- The byte stream following an SOS payload in a rebuilt image starts
with 0xFF and a byte that terminates the SOS search: either the next
encoded segment marker or the EOI code. -/
theorem encTail_shape (rest : List Segment) (hwf : ∀ s ∈ rest, segWF s)
    (hhead : ∀ m2 p2 r2, rest = (m2, p2) :: r2 → m2 ≠ 0) :
    ∃ m2 rest2, encSegs rest ++ [0xff, 0xd9] = 0xff :: m2 :: rest2 ∧ m2 ≠ 0 ∧
      ¬(0xd0 ≤ m2 ∧ m2 ≤ 0xd7) := by
  cases rest with
  | nil => exact ⟨0xd9, [], by simp [encSegs], by decide, by decide⟩
  | cons s r2 =>
    obtain ⟨m2, p2⟩ := s
    by_cases hm : m2 = 0xda
    · subst hm
      refine ⟨0xda, p2 ++ (encSegs r2 ++ [0xff, 0xd9]), ?_, by decide, by decide⟩
      show encSeg (0xda, p2) ++ encSegs r2 ++ [0xff, 0xd9] = _
      rw [show encSeg (0xda, p2) = 0xff :: 0xda :: p2 from rfl]
      simp
    · have hw := hwf (m2, p2) (by simp)
      unfold segWF at hw
      rw [if_neg hm] at hw
      refine ⟨m2, ((p2.length + 2) / 256) :: ((p2.length + 2) % 256) :: p2 ++
        (encSegs r2 ++ [0xff, 0xd9]), ?_, hhead m2 p2 r2 rfl, by omega⟩
      show encSeg (m2, p2) ++ encSegs r2 ++ [0xff, 0xd9] = _
      rw [show encSeg (m2, p2) =
        0xff :: m2 :: ((p2.length + 2) / 256) :: ((p2.length + 2) % 256) :: p2 by
          unfold encSeg
          rw [if_neg hm]]
      simp

/-- The chain condition restricts only adjacent pairs, so it carries
to the tail. -/
theorem chainOk_tail (s : Segment) (rest : List Segment) (h : chainOk (s :: rest)) :
    chainOk rest := by
  obtain ⟨m, p⟩ := s
  cases rest with
  | nil => trivial
  | cons s2 r2 =>
    obtain ⟨m2, p2⟩ := s2
    exact h.2

/-- Every segment encoding is at least the two marker bytes long. -/
theorem encSeg_len_ge (s : Segment) : 2 ≤ (encSeg s).length := by
  unfold encSeg
  split <;> simp

/-- The encoded stream is at least twice as long as the segment list. -/
theorem encSegs_len_ge : ∀ (segs : List Segment), 2 * segs.length ≤ (encSegs segs).length
  | [] => by simp [encSegs]
  | s :: rest => by
    have h1 := encSeg_len_ge s
    have h2 := encSegs_len_ge rest
    unfold encSegs
    simp only [List.length_append, List.length_cons]
    omega

/-- Scanning a rebuilt stream from behind a consumed prefix recovers
exactly the remaining well-formed segments. -/
theorem scanLoop_encoded : ∀ (segs : List Segment) (pre : List Nat) (acc : List Segment)
    (fuel : Nat), (∀ s ∈ segs, segWF s) → chainOk segs → segs.length + 2 ≤ fuel →
    scanLoop (pre ++ encSegs segs ++ [0xff, 0xd9]) fuel pre.length acc = .ok (acc ++ segs)
  | [], pre, acc, fuel, _, _, hfuel => by
    obtain ⟨f, rfl⟩ : ∃ f, fuel = f + 1 + 1 := ⟨fuel - 2, by omega⟩
    rw [show encSegs [] = ([] : List Nat) from rfl, List.append_nil]
    rw [scanLoop_skip (pre ++ [0xff, 0xd9]) (f + 1) pre.length acc 0xd9
      (by simp) (by rw [getD_append_len]; rfl) (by rw [get?_append_add]; rfl) (by decide)]
    rw [scanLoop_done (pre ++ [0xff, 0xd9]) f (pre.length + 2) acc
      (by simp only [List.length_append, List.length_cons, List.length_nil]; omega)]
    simp
  | (m, p) :: rest, pre, acc, fuel, hwf, hchain, hfuel => by
    obtain ⟨f, rfl⟩ : ∃ f, fuel = f + 1 := ⟨fuel - 1, by omega⟩
    have hwfh : segWF (m, p) := hwf (m, p) (by simp)
    have hwfr : ∀ s ∈ rest, segWF s := fun s hs => hwf s (by simp [hs])
    have hfr : rest.length + 2 ≤ f := by
      simp only [List.length_cons] at hfuel
      omega
    by_cases hm : m = 0xda
    · subst hm
      have hp : sosPayloadOk p := by
        unfold segWF at hwfh
        rw [if_pos rfl] at hwfh
        exact hwfh
      obtain ⟨m2, rest2, hsh, hm2, hr7⟩ := encTail_shape rest hwfr
        (by
          intro m2 p2 r2 heq
          subst heq
          exact hchain.1 rfl)
      have henc : pre ++ encSegs ((0xda, p) :: rest) ++ [0xff, 0xd9] =
          pre ++ 0xff :: 0xda :: (p ++ (0xff :: m2 :: rest2)) := by
        show pre ++ (encSeg (0xda, p) ++ encSegs rest) ++ [0xff, 0xd9] = _
        rw [show encSeg (0xda, p) = 0xff :: 0xda :: p from rfl, ← hsh]
        simp
      rw [henc]
      have himgsos : (pre ++ [0xff, 0xda]) ++ p ++ (0xff :: m2 :: rest2) =
          pre ++ 0xff :: 0xda :: (p ++ (0xff :: m2 :: rest2)) := by simp
      have hsos := sosScan_encoded p (pre ++ [0xff, 0xda]) m2 rest2
        ((pre ++ 0xff :: 0xda :: (p ++ (0xff :: m2 :: rest2))).length + 1) hp hm2 hr7
        (by simp only [List.length_append, List.length_cons]; omega)
      have hprelen : (pre ++ [0xff, 0xda]).length = pre.length + 2 := by simp
      rw [himgsos, hprelen] at hsos
      rw [scanLoop_sos (pre ++ 0xff :: 0xda :: (p ++ (0xff :: m2 :: rest2))) f
        pre.length acc (pre.length + 2 + p.length)
        (by simp) (by rw [getD_append_len]; rfl) (by rw [get?_append_add]; rfl) hsos]
      have hslice : sliceN (pre ++ 0xff :: 0xda :: (p ++ (0xff :: m2 :: rest2)))
          (pre.length + 2) (pre.length + 2 + p.length) = p := by
        have hprelen2 : (pre ++ [0xff, 0xda]).length = pre.length + 2 := by simp
        have hx := sliceN_extract (pre ++ [0xff, 0xda]) p (0xff :: m2 :: rest2)
        rw [himgsos, hprelen2] at hx
        exact hx
      rw [hslice]
      have hgoal : pre ++ 0xff :: 0xda :: (p ++ (0xff :: m2 :: rest2)) =
          (pre ++ 0xff :: 0xda :: p) ++ encSegs rest ++ [0xff, 0xd9] := by
        rw [← hsh]
        simp
      rw [hgoal, show pre.length + 2 + p.length = (pre ++ 0xff :: 0xda :: p).length by
        simp only [List.length_append, List.length_cons]
        omega]
      have hih := scanLoop_encoded rest (pre ++ 0xff :: 0xda :: p)
        (acc ++ [(0xda, p)]) f hwfr (chainOk_tail (0xda, p) rest hchain) hfr
      rw [hih]
      simp
    · have hw2 : segWF (m, p) := hwfh
      unfold segWF at hw2
      rw [if_neg hm] at hw2
      obtain ⟨hmb, hm1, hmr, hplen⟩ := hw2
      have hstand : ¬(m = 1 ∨ (0xd0 ≤ m ∧ m ≤ 0xd9)) := by
        rw [not_or]
        exact ⟨hm1, hmr⟩
      have hdm := Nat.div_add_mod (p.length + 2) 256
      have henc : pre ++ encSegs ((m, p) :: rest) ++ [0xff, 0xd9] =
          pre ++ 0xff :: m :: ((p.length + 2) / 256) :: ((p.length + 2) % 256) ::
            (p ++ (encSegs rest ++ [0xff, 0xd9])) := by
        show pre ++ (encSeg (m, p) ++ encSegs rest) ++ [0xff, 0xd9] = _
        rw [show encSeg (m, p) =
          0xff :: m :: ((p.length + 2) / 256) :: ((p.length + 2) % 256) :: p by
            unfold encSeg
            rw [if_neg hm]]
        simp
      rw [henc]
      rw [scanLoop_seg (pre ++ 0xff :: m :: ((p.length + 2) / 256) ::
          ((p.length + 2) % 256) :: (p ++ (encSegs rest ++ [0xff, 0xd9]))) f
        pre.length acc m ((p.length + 2) / 256) ((p.length + 2) % 256)
        (by simp) (by rw [getD_append_len]; rfl) (by rw [get?_append_add]; rfl)
        hstand hm (by rw [get?_append_add]; rfl) (by rw [get?_append_add]; rfl)]
      have hslice : sliceN (pre ++ 0xff :: m :: ((p.length + 2) / 256) ::
          ((p.length + 2) % 256) :: (p ++ (encSegs rest ++ [0xff, 0xd9])))
          (pre.length + 4)
          (pre.length + 2 + ((p.length + 2) / 256 * 256 + (p.length + 2) % 256)) = p := by
        have hx := sliceN_extract
          (pre ++ [0xff, m, (p.length + 2) / 256, (p.length + 2) % 256]) p
          (encSegs rest ++ [0xff, 0xd9])
        rw [show (pre ++ [0xff, m, (p.length + 2) / 256, (p.length + 2) % 256]).length =
          pre.length + 4 by simp] at hx
        rw [show pre.length + 2 + ((p.length + 2) / 256 * 256 + (p.length + 2) % 256) =
          pre.length + 4 + p.length by omega]
        rw [show (pre ++ [0xff, m, (p.length + 2) / 256, (p.length + 2) % 256]) ++ p ++
          (encSegs rest ++ [0xff, 0xd9]) =
          pre ++ 0xff :: m :: ((p.length + 2) / 256) :: ((p.length + 2) % 256) ::
            (p ++ (encSegs rest ++ [0xff, 0xd9])) by simp] at hx
        exact hx
      rw [hslice]
      rw [show pre ++ 0xff :: m :: ((p.length + 2) / 256) :: ((p.length + 2) % 256) ::
          (p ++ (encSegs rest ++ [0xff, 0xd9])) =
          (pre ++ 0xff :: m :: ((p.length + 2) / 256) :: ((p.length + 2) % 256) :: p) ++
            encSegs rest ++ [0xff, 0xd9] by simp]
      rw [show pre.length + 2 + ((p.length + 2) / 256 * 256 + (p.length + 2) % 256) =
        (pre ++ 0xff :: m :: ((p.length + 2) / 256) :: ((p.length + 2) % 256) :: p).length by
          simp only [List.length_append, List.length_cons]
          omega]
      have hih := scanLoop_encoded rest
        (pre ++ 0xff :: m :: ((p.length + 2) / 256) :: ((p.length + 2) % 256) :: p)
        (acc ++ [(m, p)]) f hwfr (chainOk_tail (m, p) rest hchain) hfr
      rw [hih]
      simp

/-- C2, confirmed: for a byte buffer carrying the JPEG signature whose
construction succeeds, and whose segment list has no stuffing-marker
segment directly after an SOS segment (the mid-scan marker ambiguity
the claim excludes), building a second container from the getBytes
output of the first yields the identical segment list. -/
theorem C2_roundtrip (fs : List Nat → Except PyErr (List Nat)) (img : List Nat)
    (segs : List Segment) (hbytes : ∀ b ∈ img, b < 256)
    (hsig : img.take 3 = [0xff, 0xd8, 0xff])
    (h : jfifInit fs (.str img) = .ok segs) (hchain : chainOk segs) :
    getBytes segs = .ok ([0xff, 0xd8] ++ encSegs segs ++ [0xff, 0xd9]) ∧
    jfifInit fs (.str ([0xff, 0xd8] ++ encSegs segs ++ [0xff, 0xd9])) = .ok segs := by
  have h2 : (if img.take 3 = [0xff, 0xd8, 0xff] then scanSegments img
      else (fs img).bind scanSegments) = .ok segs := h
  rw [if_pos hsig] at h2
  have hwf : ∀ s ∈ segs, segWF s :=
    scanLoop_out_wf img hbytes (img.length + 1) 0 [] segs h2 (by simp)
  refine ⟨getBytes_ok segs hwf, ?_⟩
  have hhead : ∃ t, encSegs segs ++ [0xff, 0xd9] = 0xff :: t := by
    cases segs with
    | nil => exact ⟨[0xd9], rfl⟩
    | cons s r =>
      have henc2 : encSegs (s :: r) = encSeg s ++ encSegs r := rfl
      by_cases hm : s.1 = 0xda
      · refine ⟨0xda :: (s.2 ++ (encSegs r ++ [0xff, 0xd9])), ?_⟩
        rw [henc2, show encSeg s = 0xff :: 0xda :: s.2 by unfold encSeg; rw [if_pos hm]]
        simp
      · refine ⟨s.1 :: ((s.2.length + 2) / 256) :: ((s.2.length + 2) % 256) ::
          (s.2 ++ (encSegs r ++ [0xff, 0xd9])), ?_⟩
        rw [henc2, show encSeg s = 0xff :: s.1 :: ((s.2.length + 2) / 256) ::
          ((s.2.length + 2) % 256) :: s.2 by unfold encSeg; rw [if_neg hm]]
        simp
  obtain ⟨t, ht⟩ := hhead
  have hsig2 : ([0xff, 0xd8] ++ encSegs segs ++ [0xff, 0xd9]).take 3 =
      [0xff, 0xd8, 0xff] := by
    rw [List.append_assoc, ht]
    rfl
  have h3 : jfifInit fs (.str ([0xff, 0xd8] ++ encSegs segs ++ [0xff, 0xd9])) =
      (if ([0xff, 0xd8] ++ encSegs segs ++ [0xff, 0xd9]).take 3 = [0xff, 0xd8, 0xff]
        then scanSegments ([0xff, 0xd8] ++ encSegs segs ++ [0xff, 0xd9])
        else (fs ([0xff, 0xd8] ++ encSegs segs ++ [0xff, 0xd9])).bind scanSegments) := rfl
  rw [if_pos hsig2] at h3
  rw [h3]
  unfold scanSegments
  obtain ⟨f, hf⟩ : ∃ f, ([0xff, 0xd8] ++ encSegs segs ++ [0xff, 0xd9]).length = f + 1 :=
    ⟨([0xff, 0xd8] ++ encSegs segs ++ [0xff, 0xd9]).length - 1, by simp⟩
  rw [hf]
  have hbs : [0xff, 0xd8] ++ encSegs segs ++ [0xff, 0xd9] =
      0xff :: 0xd8 :: (encSegs segs ++ [0xff, 0xd9]) := by simp
  rw [scanLoop_skip ([0xff, 0xd8] ++ encSegs segs ++ [0xff, 0xd9]) (f + 1) 0 [] 0xd8
    (by simp) (by rw [hbs]; rfl) (by rw [hbs]; rfl) (by decide)]
  have hfuel : segs.length + 2 ≤ f + 1 := by
    have hge := encSegs_len_ge segs
    simp only [List.length_append, List.length_cons, List.length_nil] at hf
    omega
  have hmain := scanLoop_encoded segs [0xff, 0xd8] [] (f + 1) hwf hchain hfuel
  simp only [List.nil_append] at hmain
  exact hmain

/-- C2 witness: a concrete buffer with one Comment segment
round-trips. -/
theorem C2_roundtrip_witness :
    getBytes [(0xfe, [0x61, 0x62])] =
      .ok ([0xff, 0xd8] ++ encSegs [(0xfe, [0x61, 0x62])] ++ [0xff, 0xd9]) ∧
    jfifInit noFS (.str ([0xff, 0xd8] ++ encSegs [(0xfe, [0x61, 0x62])] ++ [0xff, 0xd9])) =
      .ok [(0xfe, [0x61, 0x62])] :=
  C2_roundtrip noFS [0xff, 0xd8, 0xff, 0xfe, 0x00, 0x04, 0x61, 0x62] [(0xfe, [0x61, 0x62])]
    (by decide) rfl rfl (by trivial)
